import Mathlib

/-!
# Ephemeral tags overlay (`pkg/vcs/tags.go`)

A shallow embedding of the ephemeral tag store and of the `taggableVCS`
overlay, followed by the properties proved about them.

Conventions of the embedding:

* a Go `[]T` is a `List T`; the `nil` slice and the empty slice are both `[]`
  (the code only ranges over slices and appends to them);
* a Go `(T, error)` result is a pair `T × Option Error`, `none` being `nil`;
* the store is shared by pointer in the source; here every operation that
  writes it returns the new store next to the error;
* `map[moduleName][]ephemeralTag` is a total function whose value at a key
  that was never written is `[]`, which is what indexing a Go map gives. The
  map is the one allocated by `NewEphemeralTagStorage` (never the `nil` map);
* the wrapped client is outside `tags.go`: it is a record of what each of its
  methods answers, and every overlay operation also returns the sequence of
  calls it made to the wrapped client, in order.
-/

set_option autoImplicit false

/-! ## Data model -/

/-- Modelled from the spec: the `Version` type is declared outside `tags.go`;
it is a string type (the source converts it with `string(version)`). -/
abbrev Version := String

/-- The source's `type moduleName = string`. -/
abbrev moduleName := String

/-- Modelled from the spec: Go's `error` values as far as `tags.go` tells them
apart. `ErrNoMatchingVersion` is the sentinel declared outside `tags.go`, and
compared by identity in `safeList`; `errorString msg` is any other error
value, among them the ones built by `fmt.Errorf`. -/
inductive Error where
  | ErrNoMatchingVersion
  | errorString (msg : String)
deriving DecidableEq, Repr

/-- The source's `ephemeralTag`. -/
structure ephemeralTag where
  semVer : Version
  short : String
deriving DecidableEq, Repr

/-- The source's `EphemeralTagStorage`. -/
structure EphemeralTagStorage where
  tagsByModule : moduleName → List ephemeralTag

/-- Go's `time.Time`, as a number; `0` is the zero value `time.Time{}`. -/
abbrev Time := Nat

/-- The content read from an `io.ReadCloser`. -/
abbrev Archive := List Nat

/-- Modelled from the spec: the wrapped client `gitVCS` is declared outside
`tags.go`. One value of this record is what the client answers at the time of
a call: its `List`, `versionFromHash`, `Timestamp` and `zipAs` results. -/
structure gitVCS where
  List : List Version × Option Error
  versionFromHash : String → Version × Option Error
  Timestamp : Version → Time × Option Error
  zipAs : Version → String → Option Archive × Option Error

/-- A call made to the wrapped client. -/
inductive Call where
  | List
  | log (msg : String) (err : Error)
  | versionFromHash (short : String)
  | Timestamp (version : Version)
  | zipAs (version : Version) (dirName : String)
deriving DecidableEq, Repr

/-- The calls an operation made to the wrapped client, in order. -/
abbrev Trace := List Call

/-- The source's `taggableVCS`. -/
structure taggableVCS where
  wrapped : gitVCS
  module : String
  storage : EphemeralTagStorage

/-! ## The store -/

/-- The source's `NewEphemeralTagStorage`: an empty map. -/
def NewEphemeralTagStorage : EphemeralTagStorage :=
  { tagsByModule := fun _ => [] }

/-- The loop of `EphemeralTagStorage.Tag`: `tmp` receives, in order, the tags
whose version differs from `semVer`. -/
def tagLoop (semVer : Version) (tmp : List ephemeralTag) :
    List ephemeralTag → List ephemeralTag
  | [] => tmp
  | t :: rest =>
    if t.semVer ≠ semVer then tagLoop semVer (tmp ++ [t]) rest
    else tagLoop semVer tmp rest

/-- The source's `EphemeralTagStorage.Tag`: the returned error (always `nil`)
and the store after the call. -/
def EphemeralTagStorage.Tag (s : EphemeralTagStorage) (module : String)
    (semVer : Version) (short : String) : Option Error × EphemeralTagStorage :=
  let tags := s.tagsByModule module
  let tmp := tagLoop semVer [] tags
  (none,
   { tagsByModule := fun k =>
       if k = module then tmp ++ [{ semVer := semVer, short := short }]
       else s.tagsByModule k })

/-- The source's `EphemeralTagStorage.tags`. -/
def EphemeralTagStorage.tags (s : EphemeralTagStorage) (module : String) :
    List ephemeralTag :=
  s.tagsByModule module

/-! ## The overlay -/

/-- The source's `versionExists`. -/
def versionExists (versions : List Version) (v : Version) : Bool :=
  match versions with
  | [] => false
  | v2 :: rest => if v = v2 then true else versionExists rest v

/-- The loop of `appendEphemeralVersion`. -/
def appendLoop (versions : List Version) (ephemeral : List Version) :
    List ephemeralTag → List Version
  | [] => ephemeral
  | tag :: rest =>
    if !versionExists versions tag.semVer then
      appendLoop versions (ephemeral ++ [tag.semVer]) rest
    else appendLoop versions ephemeral rest

/-- The source's `appendEphemeralVersion`. -/
def appendEphemeralVersion (versions : List Version)
    (tags : List ephemeralTag) : List Version :=
  let ephemeral := appendLoop versions [] tags
  versions ++ ephemeral

/-- The source's `taggableVCS.safeList`: its result and its calls. -/
def taggableVCS.safeList (v : taggableVCS) :
    (List Version × Option Error) × Trace :=
  let remoteVersions := v.wrapped.List.1
  let err := v.wrapped.List.2
  match err with
  | some e =>
    if e ≠ Error.ErrNoMatchingVersion then (([], some e), [Call.List])
    else
      ((remoteVersions, none),
       [Call.List, Call.log "No remote version tags yet:" e])
  | none => ((remoteVersions, none), [Call.List])

/-- The source's `taggableVCS.Tag`: the returned error, the store after the
call, and the calls made. -/
def taggableVCS.Tag (v : taggableVCS) (semVer : Version) (short : String) :
    (Option Error × EphemeralTagStorage) × Trace :=
  let r := v.safeList
  let remoteVersions := r.1.1
  match r.1.2 with
  | some err => ((some err, v.storage), r.2)
  | none =>
    if versionExists remoteVersions semVer then
      ((some (Error.errorString
          ("remote version " ++ semVer ++ " already exists for module " ++ v.module)),
        v.storage), r.2)
    else (v.storage.Tag v.module semVer short, r.2)

/-- The source's `taggableVCS.List`: its result and its calls. -/
def taggableVCS.List (v : taggableVCS) :
    (List Version × Option Error) × Trace :=
  let r := v.safeList
  let remoteVersions := r.1.1
  match r.1.2 with
  | some err => (([], some err), r.2)
  | none =>
    let tags := v.storage.tags v.module
    ((appendEphemeralVersion remoteVersions tags, none), r.2)

/-- The loop of `taggableVCS.resolveVersion` over the module's tags. -/
def resolveLoop (wrapped : gitVCS) (version : Version) :
    List ephemeralTag → (Version × Option Error) × Trace
  | [] => ((version, none), [])
  | tag :: rest =>
    if tag.semVer = version then
      (wrapped.versionFromHash tag.short, [Call.versionFromHash tag.short])
    else resolveLoop wrapped version rest

/-- The source's `taggableVCS.resolveVersion`: its result and its calls. -/
def taggableVCS.resolveVersion (v : taggableVCS) (version : Version) :
    (Version × Option Error) × Trace :=
  resolveLoop v.wrapped version (v.storage.tags v.module)

/-- The source's `taggableVCS.Timestamp`: its result and its calls. -/
def taggableVCS.Timestamp (v : taggableVCS) (version : Version) :
    (Time × Option Error) × Trace :=
  let r := v.resolveVersion version
  let version2 := r.1.1
  match r.1.2 with
  | some err => ((0, some err), r.2)
  | none => (v.wrapped.Timestamp version2, r.2 ++ [Call.Timestamp version2])

/-- The source's `taggableVCS.Zip`: its result and its calls. -/
def taggableVCS.Zip (v : taggableVCS) (version : Version) :
    (Option Archive × Option Error) × Trace :=
  let r := v.resolveVersion version
  let version2 := r.1.1
  match r.1.2 with
  | some err => ((none, some err), r.2)
  | none =>
    let dirName := v.module ++ "@" ++ version
    (v.wrapped.zipAs version2 dirName, r.2 ++ [Call.zipAs version2 dirName])

/-! ## Sample values -/

/-- A wrapped client that lists `versions` with error `err`, resolves every
reference `r` to the version `"v0.0.0-" ++ r`, and has nothing else. -/
def sampleGit (versions : List Version) (err : Option Error) : gitVCS :=
  { List := (versions, err)
    versionFromHash := fun r => ("v0.0.0-" ++ r, none)
    Timestamp := fun ver => (ver.length, none)
    zipAs := fun ver dir => (some [ver.length, dir.length], none) }

/-- A store holding `tags` for `"example.com/foo"` and nothing else. -/
def sampleStore (tags : List ephemeralTag) : EphemeralTagStorage :=
  { tagsByModule := fun k => if k = "example.com/foo" then tags else [] }

/-- An overlay for `"example.com/foo"`. -/
def sampleVCS (versions : List Version) (err : Option Error)
    (tags : List ephemeralTag) : taggableVCS :=
  { wrapped := sampleGit versions err
    module := "example.com/foo"
    storage := sampleStore tags }

/-- The overlay of a module whose version `"v1.0.0"` was staged with the
reference `"abc123"` while the remote listed nothing, and whose remote now
lists `"v1.0.0"`. -/
def stagedThenPublished : taggableVCS :=
  { wrapped := sampleGit ["v1.0.0"] none
    module := "example.com/foo"
    storage :=
      (({ wrapped := sampleGit [] none
          module := "example.com/foo"
          storage := NewEphemeralTagStorage } : taggableVCS).Tag
        "v1.0.0" "abc123").1.2 }

/-- A wrapped client that lists nothing and cannot resolve any reference. -/
def staleGit : gitVCS :=
  { List := ([], none)
    versionFromHash := fun _ => ("", some (Error.errorString "unknown revision"))
    Timestamp := fun ver => (ver.length, none)
    zipAs := fun ver dir => (some [ver.length, dir.length], none) }

/-- One call of the store's `Tag`: its three arguments. -/
structure TagCall where
  module : String
  semVer : Version
  short : String
deriving DecidableEq, Repr

/-- The store left by the `Tag` calls `calls`, made in order on the store `s`. -/
def runTagCalls (s : EphemeralTagStorage) (calls : List TagCall) :
    EphemeralTagStorage :=
  calls.foldl (fun st c => (st.Tag c.module c.semVer c.short).2) s

/-! ## Lemmas on the loops -/

theorem versionExists_iff (versions : List Version) (x : Version) :
    versionExists versions x = true ↔ x ∈ versions := by
  induction versions with
  | nil => simp [versionExists]
  | cons y rest ih =>
    by_cases hxy : x = y
    · simp [versionExists, hxy]
    · simp [versionExists, hxy, ih]

theorem versionExists_eq_false_iff (versions : List Version) (x : Version) :
    versionExists versions x = false ↔ x ∉ versions := by
  rw [← versionExists_iff]
  cases versionExists versions x <;> simp

theorem tagLoop_eq (semVer : Version) (tags tmp : List ephemeralTag) :
    tagLoop semVer tmp tags
      = tmp ++ tags.filter (fun t => decide (t.semVer ≠ semVer)) := by
  induction tags generalizing tmp with
  | nil => simp [tagLoop]
  | cons t rest ih =>
    by_cases h : t.semVer = semVer
    · simp [tagLoop, h, ih]
    · simp [tagLoop, h, ih]

theorem appendLoop_eq (versions : List Version) (tags : List ephemeralTag)
    (ephemeral : List Version) :
    appendLoop versions ephemeral tags
      = ephemeral
        ++ (tags.filter (fun t => decide (t.semVer ∉ versions))).map ephemeralTag.semVer := by
  induction tags generalizing ephemeral with
  | nil => simp [appendLoop]
  | cons t rest ih =>
    by_cases h : t.semVer ∈ versions
    · have hx := (versionExists_iff versions t.semVer).mpr h
      simp [appendLoop, h, hx, ih]
    · have hx := (versionExists_eq_false_iff versions t.semVer).mpr h
      simp [appendLoop, h, hx, ih]

theorem appendEphemeralVersion_eq (versions : List Version)
    (tags : List ephemeralTag) :
    appendEphemeralVersion versions tags
      = versions
        ++ (tags.filter (fun t => decide (t.semVer ∉ versions))).map ephemeralTag.semVer := by
  simp [appendEphemeralVersion, appendLoop_eq]

theorem storeTag_tags (s : EphemeralTagStorage) (m : String) (semVer : Version)
    (short : String) :
    (s.Tag m semVer short).2.tags m
      = (s.tags m).filter (fun t => decide (t.semVer ≠ semVer))
        ++ [{ semVer := semVer, short := short }] := by
  simp [EphemeralTagStorage.Tag, EphemeralTagStorage.tags, tagLoop_eq]

theorem safeList_of_ok (v : taggableVCS) (h : v.wrapped.List.2 = none) :
    v.safeList = ((v.wrapped.List.1, none), [Call.List]) := by
  simp [taggableVCS.safeList, h]

theorem overlayList_of_ok (v : taggableVCS) (h : v.wrapped.List.2 = none) :
    v.List
      = ((v.wrapped.List.1
            ++ ((v.storage.tags v.module).filter
                  (fun t => decide (t.semVer ∉ v.wrapped.List.1))).map ephemeralTag.semVer,
          none), [Call.List]) := by
  simp [taggableVCS.List, safeList_of_ok v h, appendEphemeralVersion_eq]

theorem overlayTag_of_new (v : taggableVCS) (semVer : Version) (short : String)
    (hok : v.wrapped.List.2 = none) (hnew : semVer ∉ v.wrapped.List.1) :
    v.Tag semVer short = (v.storage.Tag v.module semVer short, [Call.List]) := by
  have hx := (versionExists_eq_false_iff v.wrapped.List.1 semVer).mpr hnew
  simp [taggableVCS.Tag, safeList_of_ok v hok, hx]

theorem resolveLoop_of_absent (wrapped : gitVCS) (version : Version)
    (tags : List ephemeralTag) (h : ∀ t ∈ tags, t.semVer ≠ version) :
    resolveLoop wrapped version tags = ((version, none), []) := by
  induction tags with
  | nil => rfl
  | cons t rest ih =>
    have ht : t.semVer ≠ version := h t (List.mem_cons_self _ _)
    have hrest : ∀ u ∈ rest, u.semVer ≠ version :=
      fun u hu => h u (List.mem_cons_of_mem _ hu)
    simp [resolveLoop, ht, ih hrest]

theorem resolveLoop_of_first (wrapped : gitVCS) (version : Version)
    (ref : String) (pre post : List ephemeralTag)
    (h : ∀ t ∈ pre, t.semVer ≠ version) :
    resolveLoop wrapped version (pre ++ { semVer := version, short := ref } :: post)
      = (wrapped.versionFromHash ref, [Call.versionFromHash ref]) := by
  induction pre with
  | nil => simp [resolveLoop]
  | cons t rest ih =>
    have ht : t.semVer ≠ version := h t (List.mem_cons_self _ _)
    have hrest : ∀ u ∈ rest, u.semVer ≠ version :=
      fun u hu => h u (List.mem_cons_of_mem _ hu)
    simp [resolveLoop, ht, ih hrest]

theorem resolveLoop_of_mem (wrapped : gitVCS) (version : Version) (ref : String)
    (tags : List ephemeralTag) (hinv : (tags.map ephemeralTag.semVer).Nodup)
    (hmem : { semVer := version, short := ref } ∈ tags) :
    resolveLoop wrapped version tags
      = (wrapped.versionFromHash ref, [Call.versionFromHash ref]) := by
  induction tags with
  | nil => simp at hmem
  | cons t rest ih =>
    rw [List.map_cons, List.nodup_cons] at hinv
    by_cases ht : t.semVer = version
    · have htr : t = { semVer := version, short := ref } := by
        rcases List.mem_cons.mp hmem with h | h
        · exact h.symm
        · exact absurd (List.mem_map.mpr ⟨_, h, ht.symm⟩) hinv.1
      simp [resolveLoop, htr]
    · have hrest : { semVer := version, short := ref } ∈ rest := by
        rcases List.mem_cons.mp hmem with h | h
        · exact absurd (by rw [← h]) ht
        · exact h
      simp [resolveLoop, ht, ih hinv.2 hrest]

theorem ref_unique_of_nodup (version : Version) (ref ref2 : String)
    (tags : List ephemeralTag) (hinv : (tags.map ephemeralTag.semVer).Nodup)
    (hmem : { semVer := version, short := ref } ∈ tags)
    (hmem2 : { semVer := version, short := ref2 } ∈ tags) : ref2 = ref := by
  induction tags with
  | nil => simp at hmem
  | cons t rest ih =>
    rw [List.map_cons, List.nodup_cons] at hinv
    rcases List.mem_cons.mp hmem with h | h <;>
      rcases List.mem_cons.mp hmem2 with h2 | h2
    · have hEq := h2.trans h.symm
      simpa using hEq
    · exact absurd (List.mem_map.mpr ⟨_, h2, by rw [← h]⟩) hinv.1
    · exact absurd (List.mem_map.mpr ⟨_, h, by rw [← h2]⟩) hinv.1
    · exact ih hinv.2 h h2

theorem resolveLoop_trace (wrapped : gitVCS) (version : Version)
    (tags : List ephemeralTag) :
    ∀ c ∈ (resolveLoop wrapped version tags).2, ∃ r, c = Call.versionFromHash r := by
  induction tags with
  | nil => simp [resolveLoop]
  | cons t rest ih =>
    by_cases ht : t.semVer = version
    · simp [resolveLoop, ht]
    · simpa [resolveLoop, ht] using ih

theorem resolveLoop_filter (wrapped : gitVCS) (version : Version)
    (tags : List ephemeralTag) :
    resolveLoop wrapped version tags
      = resolveLoop wrapped version
          (tags.filter (fun t => decide (t.semVer = version))) := by
  induction tags with
  | nil => rfl
  | cons t rest ih =>
    by_cases ht : t.semVer = version
    · simp [resolveLoop, ht]
    · simp [resolveLoop, ht, ih]

theorem storeTag_tags_other (s : EphemeralTagStorage) (m m2 : String)
    (semVer : Version) (short : String) (hne : m2 ≠ m) :
    (s.Tag m semVer short).2.tags m2 = s.tags m2 := by
  simp [EphemeralTagStorage.Tag, EphemeralTagStorage.tags, hne]

theorem overlayList_of_noMatch (v : taggableVCS)
    (h : v.wrapped.List.2 = some Error.ErrNoMatchingVersion) :
    v.List.1
      = (v.wrapped.List.1
            ++ ((v.storage.tags v.module).filter
                  (fun t => decide (t.semVer ∉ v.wrapped.List.1))).map ephemeralTag.semVer,
          none) := by
  simp [taggableVCS.List, taggableVCS.safeList, h, appendEphemeralVersion_eq]

theorem nodup_storeTag (s : EphemeralTagStorage) (m m2 : String)
    (semVer : Version) (short : String)
    (hinv : ((s.tags m2).map ephemeralTag.semVer).Nodup) :
    (((s.Tag m semVer short).2.tags m2).map ephemeralTag.semVer).Nodup := by
  by_cases hm : m2 = m
  · subst hm
    rw [storeTag_tags, List.map_append, List.nodup_append]
    refine ⟨?_, by simp, ?_⟩
    · exact hinv.sublist (List.Sublist.map _ (List.filter_sublist _))
    · intro x hx hx2
      simp only [List.map_cons, List.map_nil, List.mem_singleton] at hx2
      subst hx2
      obtain ⟨t, ht, hts⟩ := List.mem_map.mp hx
      have := (List.mem_filter.mp ht).2
      simp [hts] at this
  · rw [storeTag_tags_other s m m2 semVer short hm]
    exact hinv

theorem nodup_runTagCalls (calls : List TagCall) (s : EphemeralTagStorage)
    (hinv : ∀ m, ((s.tags m).map ephemeralTag.semVer).Nodup) :
    ∀ m, (((runTagCalls s calls).tags m).map ephemeralTag.semVer).Nodup := by
  induction calls generalizing s with
  | nil => simpa [runTagCalls] using hinv
  | cons c rest ih =>
    have hstep : ∀ m, (((s.Tag c.module c.semVer c.short).2.tags m).map
        ephemeralTag.semVer).Nodup :=
      fun m => nodup_storeTag s c.module m c.semVer c.short (hinv m)
    simpa [runTagCalls] using ih _ hstep

theorem overlayTag_store_cases (v : taggableVCS) (semVer : Version)
    (short : String) :
    (v.Tag semVer short).1.2 = v.storage
      ∨ (v.Tag semVer short).1.2 = (v.storage.Tag v.module semVer short).2 := by
  unfold taggableVCS.Tag
  cases hs : v.safeList.1.2 with
  | some e => left; simp [hs]
  | none =>
    by_cases hx : versionExists v.safeList.1.1 semVer = true
    · left; simp [hs, hx]
    · right; simp [hs, hx]

theorem overlay_reads_congr (w : gitVCS) (m : String)
    (s1 s2 : EphemeralTagStorage) (h : s1.tags m = s2.tags m) :
    ({ wrapped := w, module := m, storage := s1 } : taggableVCS).List
        = ({ wrapped := w, module := m, storage := s2 } : taggableVCS).List
      ∧ ∀ version : Version,
          ({ wrapped := w, module := m, storage := s1 } : taggableVCS).resolveVersion
              version
            = ({ wrapped := w, module := m, storage := s2 } : taggableVCS).resolveVersion
              version := by
  refine ⟨?_, ?_⟩
  · simp [taggableVCS.List, taggableVCS.safeList, h]
  · intro version
    simp [taggableVCS.resolveVersion, h]

/-! ## Properties -/

/-- C1: when the wrapped client lists `R` without error, the overlay's `List`
returns `R` followed by the versions of the module's ephemeral tags that do
not occur in `R`, in the store's order, and no error. -/
theorem list_is_remote_then_new_ephemeral (v : taggableVCS) (R : List Version)
    (h : v.wrapped.List = (R, none)) :
    v.List.1
      = (R ++ ((v.storage.tags v.module).filter
                (fun t => decide (t.semVer ∉ R))).map ephemeralTag.semVer,
         none) := by
  have h2 : v.wrapped.List.2 = none := by rw [h]
  have h1 : v.wrapped.List.1 = R := by rw [h]
  simp [taggableVCS.List, safeList_of_ok v h2, h1, appendEphemeralVersion_eq]

theorem list_is_remote_then_new_ephemeral_witness :
    (sampleVCS ["v1.0.0", "v1.1.0"] none
        [⟨"v2.0.0", "abc"⟩, ⟨"v1.0.0", "def"⟩, ⟨"v1.2.0", "012"⟩]).List.1
      = (["v1.0.0", "v1.1.0", "v2.0.0", "v1.2.0"], none) :=
  list_is_remote_then_new_ephemeral
    (sampleVCS ["v1.0.0", "v1.1.0"] none
        [⟨"v2.0.0", "abc"⟩, ⟨"v1.0.0", "def"⟩, ⟨"v1.2.0", "012"⟩])
    ["v1.0.0", "v1.1.0"] rfl

/-- C2: when the version occurs in the list the wrapped client returns,
the overlay's `Tag` returns an error and the store is the one before the call;
when the wrapped client's `List` itself did not fail, the error is the
"already exists" one naming the version and the module. -/
theorem tag_of_remote_version_fails (v : taggableVCS) (semVer : Version)
    (short : String) (h : semVer ∈ v.wrapped.List.1) :
    (∃ e, (v.Tag semVer short).1.1 = some e)
      ∧ (v.Tag semVer short).1.2 = v.storage
      ∧ (v.wrapped.List.2 = none →
          (v.Tag semVer short).1.1
            = some (Error.errorString
                ("remote version " ++ semVer ++ " already exists for module "
                  ++ v.module))) := by
  have hx := (versionExists_iff v.wrapped.List.1 semVer).mpr h
  cases herr : v.wrapped.List.2 with
  | none => simp [taggableVCS.Tag, taggableVCS.safeList, herr, hx]
  | some e =>
    by_cases he : e = Error.ErrNoMatchingVersion
    · simp [taggableVCS.Tag, taggableVCS.safeList, herr, hx, he]
    · simp [taggableVCS.Tag, taggableVCS.safeList, herr, he]

theorem tag_of_remote_version_fails_witness :
    (∃ e, ((sampleVCS ["v1.0.0"] none [⟨"v0.9.0", "abc"⟩]).Tag
              "v1.0.0" "def456").1.1 = some e)
      ∧ ((sampleVCS ["v1.0.0"] none [⟨"v0.9.0", "abc"⟩]).Tag
              "v1.0.0" "def456").1.2
          = (sampleVCS ["v1.0.0"] none [⟨"v0.9.0", "abc"⟩]).storage
      ∧ ((sampleVCS ["v1.0.0"] none [⟨"v0.9.0", "abc"⟩]).wrapped.List.2 = none →
          ((sampleVCS ["v1.0.0"] none [⟨"v0.9.0", "abc"⟩]).Tag
              "v1.0.0" "def456").1.1
            = some (Error.errorString
                "remote version v1.0.0 already exists for module example.com/foo")) :=
  tag_of_remote_version_fails
    (sampleVCS ["v1.0.0"] none [⟨"v0.9.0", "abc"⟩]) "v1.0.0" "def456"
    (by decide)

/-- C3: when the wrapped client lists `R` without error and the version does
not occur in `R`, the overlay's `Tag` succeeds, and `List` on the store it
leaves (the remote still listing `R`) succeeds with a list in which the
version occurs exactly once. -/
theorem tag_then_list_has_version_once (v : taggableVCS) (semVer : Version)
    (short : String) (hok : v.wrapped.List.2 = none)
    (hnew : semVer ∉ v.wrapped.List.1) :
    (v.Tag semVer short).1.1 = none
      ∧ ({ v with storage := (v.Tag semVer short).1.2 } : taggableVCS).List.1.2 = none
      ∧ (({ v with storage := (v.Tag semVer short).1.2 } : taggableVCS).List.1.1).count
          semVer = 1 := by
  have hT := overlayTag_of_new v semVer short hok hnew
  have hL := overlayList_of_ok
    ({ v with storage := (v.Tag semVer short).1.2 } : taggableVCS) hok
  refine ⟨?_, ?_, ?_⟩
  · rw [hT]; rfl
  · rw [hL]
  · rw [hL, hT]
    have h1 : List.count semVer v.wrapped.List.1 = 0 := List.count_eq_zero.mpr hnew
    have h2 : List.count semVer
        (List.map ephemeralTag.semVer
          (List.filter
            (fun a => !decide (a.semVer ∈ v.wrapped.List.1) && !decide (a.semVer = semVer))
            (v.storage.tags v.module))) = 0 := by
      apply List.count_eq_zero.mpr
      simp only [List.mem_map, List.mem_filter]
      rintro ⟨t, ⟨_, ht⟩, rfl⟩
      simp at ht
    simp [storeTag_tags, List.filter_append, List.count_append, hnew, h1, h2]

theorem tag_then_list_has_version_once_witness :
    ((sampleVCS ["v1.0.0"] none [⟨"v1.1.0", "abc"⟩]).Tag "v1.1.0" "def").1.1 = none
      ∧ ({ sampleVCS ["v1.0.0"] none [⟨"v1.1.0", "abc"⟩] with
            storage := ((sampleVCS ["v1.0.0"] none [⟨"v1.1.0", "abc"⟩]).Tag
              "v1.1.0" "def").1.2 } : taggableVCS).List.1.2 = none
      ∧ (({ sampleVCS ["v1.0.0"] none [⟨"v1.1.0", "abc"⟩] with
            storage := ((sampleVCS ["v1.0.0"] none [⟨"v1.1.0", "abc"⟩]).Tag
              "v1.1.0" "def").1.2 } : taggableVCS).List.1.1).count "v1.1.0" = 1 :=
  tag_then_list_has_version_once
    (sampleVCS ["v1.0.0"] none [⟨"v1.1.0", "abc"⟩]) "v1.1.0" "def" rfl (by decide)

/-- C4: for a version absent from the remote list, `Tag` with `ref1` followed
by `Tag` with `ref2` both succeed; the module's tags then hold exactly one
entry with that version, it carries `ref2`, and `resolveVersion` returns what
the wrapped client resolves `ref2` to, asking it about `ref2` only. -/
theorem retag_keeps_one_entry_with_last_ref (v : taggableVCS) (semVer : Version)
    (ref1 ref2 : String) (hok : v.wrapped.List.2 = none)
    (hnew : semVer ∉ v.wrapped.List.1) :
    (v.Tag semVer ref1).1.1 = none
      ∧ (({ v with storage := (v.Tag semVer ref1).1.2 } : taggableVCS).Tag
            semVer ref2).1.1 = none
      ∧ ((({ v with storage := (v.Tag semVer ref1).1.2 } : taggableVCS).Tag
            semVer ref2).1.2.tags v.module).filter
            (fun t => decide (t.semVer = semVer))
          = [{ semVer := semVer, short := ref2 }]
      ∧ ({ v with storage :=
              (({ v with storage := (v.Tag semVer ref1).1.2 } : taggableVCS).Tag
                semVer ref2).1.2 } : taggableVCS).resolveVersion semVer
          = (v.wrapped.versionFromHash ref2, [Call.versionFromHash ref2]) := by
  have hT1 := overlayTag_of_new v semVer ref1 hok hnew
  have hT2 := overlayTag_of_new
    ({ v with storage := (v.Tag semVer ref1).1.2 } : taggableVCS) semVer ref2 hok hnew
  have hpre : ∀ t ∈ ((v.storage.tags v.module).filter
      (fun t => decide (t.semVer ≠ semVer))), t.semVer ≠ semVer := by
    intro t ht
    simpa using (List.mem_filter.mp ht).2
  have htags : (({ v with storage := (v.Tag semVer ref1).1.2 } : taggableVCS).Tag
        semVer ref2).1.2.tags v.module
      = (v.storage.tags v.module).filter (fun t => decide (t.semVer ≠ semVer))
        ++ [{ semVer := semVer, short := ref2 }] := by
    rw [hT2, hT1]
    simp [storeTag_tags, List.filter_append, List.filter_filter]
  refine ⟨?_, ?_, ?_, ?_⟩
  · rw [hT1]; rfl
  · rw [hT2]; rfl
  · rw [htags]
    simp [List.filter_append, List.filter_filter]
  · simp only [taggableVCS.resolveVersion]
    rw [htags]
    exact resolveLoop_of_first v.wrapped semVer ref2 _ [] hpre

theorem retag_keeps_one_entry_with_last_ref_witness :
    ((({ sampleVCS ["v1.0.0"] none [⟨"v1.1.0", "old"⟩, ⟨"v1.2.0", "xyz"⟩] with
          storage := ((sampleVCS ["v1.0.0"] none
            [⟨"v1.1.0", "old"⟩, ⟨"v1.2.0", "xyz"⟩]).Tag "v1.1.0" "abc").1.2 }
        : taggableVCS).Tag "v1.1.0" "def").1.2.tags "example.com/foo")
      = [⟨"v1.2.0", "xyz"⟩, ⟨"v1.1.0", "def"⟩]
    ∧ ({ sampleVCS ["v1.0.0"] none [⟨"v1.1.0", "old"⟩, ⟨"v1.2.0", "xyz"⟩] with
          storage :=
            (({ sampleVCS ["v1.0.0"] none [⟨"v1.1.0", "old"⟩, ⟨"v1.2.0", "xyz"⟩] with
                storage := ((sampleVCS ["v1.0.0"] none
                  [⟨"v1.1.0", "old"⟩, ⟨"v1.2.0", "xyz"⟩]).Tag "v1.1.0" "abc").1.2 }
              : taggableVCS).Tag "v1.1.0" "def").1.2 }
        : taggableVCS).resolveVersion "v1.1.0"
      = (("v0.0.0-def", none), [Call.versionFromHash "def"]) :=
  ⟨by decide,
   (retag_keeps_one_entry_with_last_ref
      (sampleVCS ["v1.0.0"] none [⟨"v1.1.0", "old"⟩, ⟨"v1.2.0", "xyz"⟩])
      "v1.1.0" "abc" "def" rfl (by decide)).2.2.2⟩

/-- C5 (as stated, refuted): a version staged with reference `"abc123"` and
later listed by the remote is still resolved through the reference:
`resolveVersion "v1.0.0"` is `"v0.0.0-abc123"`, not `"v1.0.0"`, and that is
the version `Timestamp` and `Zip` pass to the wrapped client. -/
theorem resolve_of_published_version_counterexample :
    "v1.0.0" ∈ stagedThenPublished.wrapped.List.1
      ∧ stagedThenPublished.storage.tags stagedThenPublished.module
          = [{ semVer := "v1.0.0", short := "abc123" }]
      ∧ (stagedThenPublished.resolveVersion "v1.0.0").1 = ("v0.0.0-abc123", none)
      ∧ (stagedThenPublished.resolveVersion "v1.0.0").1.1 ≠ "v1.0.0"
      ∧ (stagedThenPublished.Timestamp "v1.0.0").2
          = [Call.versionFromHash "abc123", Call.Timestamp "v0.0.0-abc123"]
      ∧ (stagedThenPublished.Zip "v1.0.0").2
          = [Call.versionFromHash "abc123",
             Call.zipAs "v0.0.0-abc123" "example.com/foo@v1.0.0"] := by
  decide

/-- C5 (amended): when the version occurs in the remote list and the first tag
of the module with that version is `(version, ref)`, `resolveVersion` returns
what the wrapped client resolves `ref` to, asking it about `ref` only; and
when that resolution succeeds, the resolved version is the one `Timestamp` and
`Zip` pass to the wrapped client. -/
theorem resolve_of_published_version_uses_tag (v : taggableVCS)
    (version : Version) (ref : String) (pre post : List ephemeralTag)
    (_hremote : version ∈ v.wrapped.List.1)
    (htags : v.storage.tags v.module
      = pre ++ { semVer := version, short := ref } :: post)
    (hpre : ∀ t ∈ pre, t.semVer ≠ version) :
    v.resolveVersion version
        = (v.wrapped.versionFromHash ref, [Call.versionFromHash ref])
      ∧ ((v.wrapped.versionFromHash ref).2 = none →
          (v.Timestamp version).2
              = [Call.versionFromHash ref,
                 Call.Timestamp (v.wrapped.versionFromHash ref).1]
            ∧ (v.Zip version).2
              = [Call.versionFromHash ref,
                 Call.zipAs (v.wrapped.versionFromHash ref).1
                   (v.module ++ "@" ++ version)]) := by
  have hr : v.resolveVersion version
      = (v.wrapped.versionFromHash ref, [Call.versionFromHash ref]) := by
    simp only [taggableVCS.resolveVersion]
    rw [htags]
    exact resolveLoop_of_first v.wrapped version ref pre post hpre
  refine ⟨hr, ?_⟩
  intro hok
  simp [taggableVCS.Timestamp, taggableVCS.Zip, hr, hok]

theorem resolve_of_published_version_uses_tag_witness :
    stagedThenPublished.resolveVersion "v1.0.0"
      = (("v0.0.0-abc123", none), [Call.versionFromHash "abc123"]) :=
  (resolve_of_published_version_uses_tag stagedThenPublished "v1.0.0" "abc123"
    [] [] (by decide) (by decide) (by decide)).1

/-- C6 (as stated, refuted): with the remote listing `"v1.0.0"` twice and an
ephemeral tag for `"v1.0.0"` in the store, `List` returns `"v1.0.0"` twice. -/
theorem list_of_duplicated_remote_counterexample :
    "v1.0.0" ∈ (sampleVCS ["v1.0.0", "v1.0.0"] none [⟨"v1.0.0", "abc123"⟩]).wrapped.List.1
      ∧ (sampleVCS ["v1.0.0", "v1.0.0"] none [⟨"v1.0.0", "abc123"⟩]).storage.tags
            "example.com/foo" = [⟨"v1.0.0", "abc123"⟩]
      ∧ (sampleVCS ["v1.0.0", "v1.0.0"] none [⟨"v1.0.0", "abc123"⟩]).List.1
          = (["v1.0.0", "v1.0.0"], none)
      ∧ ((sampleVCS ["v1.0.0", "v1.0.0"] none [⟨"v1.0.0", "abc123"⟩]).List.1.1).count
            "v1.0.0" ≠ 1 := by
  decide

/-- C6 (amended): when the wrapped client lists `R` without error and the
version occurs in `R`, the overlay's `List` contains the version exactly as
many times as `R` does, whatever the store holds; so exactly once when `R`
contains it once. -/
theorem list_counts_remote_version_as_remote (v : taggableVCS) (version : Version)
    (hok : v.wrapped.List.2 = none) (hremote : version ∈ v.wrapped.List.1) :
    (v.List.1.1).count version = (v.wrapped.List.1).count version
      ∧ ((v.wrapped.List.1).count version = 1 → (v.List.1.1).count version = 1) := by
  have hc : (v.List.1.1).count version = (v.wrapped.List.1).count version := by
    rw [overlayList_of_ok v hok]
    have h2 : List.count version
        (List.map ephemeralTag.semVer
          (List.filter (fun t => decide (t.semVer ∉ v.wrapped.List.1))
            (v.storage.tags v.module))) = 0 := by
      apply List.count_eq_zero.mpr
      simp only [List.mem_map, List.mem_filter]
      rintro ⟨t, ⟨_, ht⟩, rfl⟩
      simp [hremote] at ht
    simp only [List.count_append, h2, Nat.add_zero]
  exact ⟨hc, fun h1 => hc.trans h1⟩

theorem list_counts_remote_version_as_remote_witness :
    ((sampleVCS ["v0.9.0", "v1.0.0"] none
        [⟨"v1.0.0", "abc123"⟩, ⟨"v1.1.0", "def456"⟩]).List.1.1).count "v1.0.0" = 1 :=
  (list_counts_remote_version_as_remote
    (sampleVCS ["v0.9.0", "v1.0.0"] none
        [⟨"v1.0.0", "abc123"⟩, ⟨"v1.1.0", "def456"⟩]) "v1.0.0" rfl (by decide)).2
    (by decide)

/-- C7 (as stated, refuted): when the wrapped client returns the list
`["v1.0.0"]` together with `ErrNoMatchingVersion`, `safeList` returns
`["v1.0.0"]` and no error, not the empty list. -/
theorem safeList_keeps_list_counterexample :
    (sampleVCS ["v1.0.0"] (some Error.ErrNoMatchingVersion) []).wrapped.List.2
        = some Error.ErrNoMatchingVersion
      ∧ (sampleVCS ["v1.0.0"] (some Error.ErrNoMatchingVersion) []).safeList.1
          = (["v1.0.0"], none)
      ∧ (sampleVCS ["v1.0.0"] (some Error.ErrNoMatchingVersion) []).safeList.1
          ≠ ([], none) := by
  decide

/-- C7 (amended): when the wrapped client's `List` returns
`ErrNoMatchingVersion`, `safeList` returns no error and the list that came
with the error, unchanged (after one `List` call and one log line); so the
empty list when the client returned no versions with the error. -/
theorem safeList_absorbs_no_matching_version (v : taggableVCS)
    (h : v.wrapped.List.2 = some Error.ErrNoMatchingVersion) :
    v.safeList
        = ((v.wrapped.List.1, none),
           [Call.List,
            Call.log "No remote version tags yet:" Error.ErrNoMatchingVersion])
      ∧ (v.wrapped.List.1 = [] → v.safeList.1 = ([], none)) := by
  have hs : v.safeList
      = ((v.wrapped.List.1, none),
         [Call.List,
          Call.log "No remote version tags yet:" Error.ErrNoMatchingVersion]) := by
    simp [taggableVCS.safeList, h]
  refine ⟨hs, ?_⟩
  intro hnil
  rw [hs, hnil]

theorem safeList_absorbs_no_matching_version_witness :
    (sampleVCS [] (some Error.ErrNoMatchingVersion) [⟨"v0.1.0", "abc123"⟩]).safeList.1
      = ([], none) :=
  (safeList_absorbs_no_matching_version
    (sampleVCS [] (some Error.ErrNoMatchingVersion) [⟨"v0.1.0", "abc123"⟩]) rfl).2 rfl

/-- C8: when the wrapped client's `List` fails with an error `e` other than
`ErrNoMatchingVersion`, `safeList` and the overlay's `List` return no versions
and the error `e` itself, and the overlay's `Tag` returns `e` itself and leaves
the store as it was. -/
theorem list_error_is_propagated (v : taggableVCS) (e : Error)
    (h : v.wrapped.List.2 = some e) (he : e ≠ Error.ErrNoMatchingVersion) :
    v.safeList.1 = ([], some e)
      ∧ v.List.1 = ([], some e)
      ∧ ∀ (semVer : Version) (short : String),
          (v.Tag semVer short).1 = (some e, v.storage) := by
  have hs : v.safeList = (([], some e), [Call.List]) := by
    simp [taggableVCS.safeList, h, he]
  refine ⟨?_, ?_, ?_⟩
  · rw [hs]
  · simp [taggableVCS.List, hs]
  · intro semVer short
    simp [taggableVCS.Tag, hs]

theorem list_error_is_propagated_witness :
    (sampleVCS ["v1.0.0"] (some (Error.errorString "connection refused"))
        [⟨"v1.1.0", "abc123"⟩]).List.1
      = ([], some (Error.errorString "connection refused")) :=
  (list_error_is_propagated
    (sampleVCS ["v1.0.0"] (some (Error.errorString "connection refused"))
        [⟨"v1.1.0", "abc123"⟩])
    (Error.errorString "connection refused") rfl (by decide)).2.1

/-- C9: when no ephemeral tag of the module has the requested version,
`resolveVersion` returns that version and no error, and makes no call to the
wrapped client, whatever the wrapped client is. -/
theorem resolve_without_tag_is_identity (v : taggableVCS) (version : Version)
    (h : ∀ t ∈ v.storage.tags v.module, t.semVer ≠ version) :
    v.resolveVersion version = ((version, none), []) := by
  simp only [taggableVCS.resolveVersion]
  exact resolveLoop_of_absent v.wrapped version _ h

theorem resolve_without_tag_is_identity_witness :
    (sampleVCS ["v1.0.0"] none [⟨"v1.1.0", "abc123"⟩]).resolveVersion "v1.0.0"
      = (("v1.0.0", none), []) :=
  resolve_without_tag_is_identity
    (sampleVCS ["v1.0.0"] none [⟨"v1.1.0", "abc123"⟩]) "v1.0.0" (by decide)

/-- C10: when the module's tags hold at most one entry per version and
`(version, ref)` is among them, `resolveVersion` returns exactly what the
wrapped client resolves `ref` to (version or error), wherever the tag stands
in the sequence, and `ref` is the only reference stored for the version. -/
theorem resolve_of_tagged_version (v : taggableVCS) (version : Version)
    (ref : String)
    (hinv : ((v.storage.tags v.module).map ephemeralTag.semVer).Nodup)
    (hmem : { semVer := version, short := ref } ∈ v.storage.tags v.module) :
    v.resolveVersion version
        = (v.wrapped.versionFromHash ref, [Call.versionFromHash ref])
      ∧ ∀ ref2 : String,
          { semVer := version, short := ref2 } ∈ v.storage.tags v.module →
            ref2 = ref := by
  refine ⟨?_, ?_⟩
  · simp only [taggableVCS.resolveVersion]
    exact resolveLoop_of_mem v.wrapped version ref _ hinv hmem
  · intro ref2 h2
    exact ref_unique_of_nodup version ref ref2 _ hinv hmem h2

theorem resolve_of_tagged_version_witness :
    (sampleVCS [] none
        [⟨"v1.0.0", "abc"⟩, ⟨"v1.1.0", "def"⟩, ⟨"v1.2.0", "012"⟩]).resolveVersion
        "v1.1.0"
      = (("v0.0.0-def", none), [Call.versionFromHash "def"]) :=
  (resolve_of_tagged_version
    (sampleVCS [] none [⟨"v1.0.0", "abc"⟩, ⟨"v1.1.0", "def"⟩, ⟨"v1.2.0", "012"⟩])
    "v1.1.0" "def" (by decide) (by decide)).1

/-- C11: when `resolveVersion` of the requested version succeeds with
`version2`, `Zip` returns what the wrapped `zipAs` returns for `version2` and
the directory name `module ++ "@" ++ version` (the requested version), and
that `zipAs` call is the last call it makes; when resolution fails with `e`,
`Zip` returns no archive and `e`, and makes no `zipAs` call. -/
theorem zip_names_archive_after_requested_version (v : taggableVCS)
    (version : Version) :
    ((v.resolveVersion version).1.2 = none →
        v.Zip version
          = (v.wrapped.zipAs (v.resolveVersion version).1.1
                (v.module ++ "@" ++ version),
             (v.resolveVersion version).2
               ++ [Call.zipAs (v.resolveVersion version).1.1
                    (v.module ++ "@" ++ version)]))
      ∧ (∀ e, (v.resolveVersion version).1.2 = some e →
          (v.Zip version).1 = (none, some e)
            ∧ ∀ ver dir, Call.zipAs ver dir ∉ (v.Zip version).2)
      ∧ ∀ ver dir, Call.zipAs ver dir ∉ (v.resolveVersion version).2 := by
  have htr : ∀ ver dir, Call.zipAs ver dir ∉ (v.resolveVersion version).2 := by
    intro ver dir hc
    obtain ⟨r, hr⟩ := resolveLoop_trace v.wrapped version _ _ hc
    cases hr
  refine ⟨?_, ?_, htr⟩
  · intro hok
    simp [taggableVCS.Zip, hok]
  · intro e he
    have hz : v.Zip version = ((none, some e), (v.resolveVersion version).2) := by
      simp [taggableVCS.Zip, he]
    refine ⟨by rw [hz], ?_⟩
    intro ver dir
    rw [hz]
    exact htr ver dir

theorem zip_names_archive_after_requested_version_witness :
    (sampleVCS [] none [⟨"v0.1.0", "abc123"⟩]).Zip "v0.1.0"
        = ((some [13, 22], none),
           [Call.versionFromHash "abc123",
            Call.zipAs "v0.0.0-abc123" "example.com/foo@v0.1.0"])
      ∧ (({ wrapped := staleGit, module := "example.com/foo",
            storage := sampleStore [⟨"v0.1.0", "abc123"⟩] } : taggableVCS).Zip
          "v0.1.0").1
        = (none, some (Error.errorString "unknown revision")) :=
  ⟨(zip_names_archive_after_requested_version
      (sampleVCS [] none [⟨"v0.1.0", "abc123"⟩]) "v0.1.0").1 (by decide),
   ((zip_names_archive_after_requested_version
      ({ wrapped := staleGit, module := "example.com/foo",
         storage := sampleStore [⟨"v0.1.0", "abc123"⟩] } : taggableVCS)
      "v0.1.0").2.1 (Error.errorString "unknown revision") (by decide)).1⟩

/-- C12: when `resolveVersion` of the requested version succeeds with
`version2`, `Timestamp` returns what the wrapped `Timestamp` returns for
`version2`, that lookup being its last call; when resolution fails with `e`,
`Timestamp` returns the zero time and `e`, and makes no timestamp lookup; and
for a store with one entry per version holding `(version, ref)`, where the
wrapped client resolves `ref` to `version2`, the lookup is made for
`version2`. -/
theorem timestamp_uses_resolved_version (v : taggableVCS) (version : Version) :
    ((v.resolveVersion version).1.2 = none →
        v.Timestamp version
          = (v.wrapped.Timestamp (v.resolveVersion version).1.1,
             (v.resolveVersion version).2
               ++ [Call.Timestamp (v.resolveVersion version).1.1]))
      ∧ (∀ e, (v.resolveVersion version).1.2 = some e →
          (v.Timestamp version).1 = (0, some e)
            ∧ ∀ ver, Call.Timestamp ver ∉ (v.Timestamp version).2)
      ∧ (∀ (ref : String) (version2 : Version),
          ((v.storage.tags v.module).map ephemeralTag.semVer).Nodup →
          { semVer := version, short := ref } ∈ v.storage.tags v.module →
          v.wrapped.versionFromHash ref = (version2, none) →
          v.Timestamp version
            = (v.wrapped.Timestamp version2,
               [Call.versionFromHash ref, Call.Timestamp version2])) := by
  have htr : ∀ ver, Call.Timestamp ver ∉ (v.resolveVersion version).2 := by
    intro ver hc
    obtain ⟨r, hr⟩ := resolveLoop_trace v.wrapped version _ _ hc
    cases hr
  refine ⟨?_, ?_, ?_⟩
  · intro hok
    simp [taggableVCS.Timestamp, hok]
  · intro e he
    have hz : v.Timestamp version = ((0, some e), (v.resolveVersion version).2) := by
      simp [taggableVCS.Timestamp, he]
    refine ⟨by rw [hz], ?_⟩
    intro ver
    rw [hz]
    exact htr ver
  · intro ref version2 hinv hmem hres
    have hr : v.resolveVersion version
        = (v.wrapped.versionFromHash ref, [Call.versionFromHash ref]) := by
      simp only [taggableVCS.resolveVersion]
      exact resolveLoop_of_mem v.wrapped version ref _ hinv hmem
    simp [taggableVCS.Timestamp, hr, hres]

theorem timestamp_uses_resolved_version_witness :
    (sampleVCS [] none [⟨"v0.1.0", "abc123"⟩]).Timestamp "v0.1.0"
        = ((13, none),
           [Call.versionFromHash "abc123", Call.Timestamp "v0.0.0-abc123"])
      ∧ (({ wrapped := staleGit, module := "example.com/foo",
            storage := sampleStore [⟨"v0.1.0", "abc123"⟩] } : taggableVCS).Timestamp
          "v0.1.0").1
        = (0, some (Error.errorString "unknown revision")) :=
  ⟨(timestamp_uses_resolved_version
      (sampleVCS [] none [⟨"v0.1.0", "abc123"⟩]) "v0.1.0").2.2
      "abc123" "v0.0.0-abc123" (by decide) (by decide) rfl,
   ((timestamp_uses_resolved_version
      ({ wrapped := staleGit, module := "example.com/foo",
         storage := sampleStore [⟨"v0.1.0", "abc123"⟩] } : taggableVCS)
      "v0.1.0").2.1 (Error.errorString "unknown revision") (by decide)).1⟩

/-- C13: when the wrapped client's `List` returns no versions and
`ErrNoMatchingVersion`, the overlay's `Tag` succeeds for every version and
reference, and `List` on the store it leaves succeeds and returns the versions
of the module's ephemeral tags, in store order; and from an empty store,
`Tag "v0.1.0" "abc123"` on `"example.com/foo"` is followed by
`List = ["v0.1.0"]`. -/
theorem tag_and_list_without_remote_versions (v : taggableVCS) (semVer : Version)
    (short : String)
    (h : v.wrapped.List = ([], some Error.ErrNoMatchingVersion)) :
    (v.Tag semVer short).1.1 = none
      ∧ ({ v with storage := (v.Tag semVer short).1.2 } : taggableVCS).List.1
          = ((({ v with storage := (v.Tag semVer short).1.2 } : taggableVCS).storage.tags
                v.module).map ephemeralTag.semVer, none)
      ∧ (({ v with storage := (v.Tag semVer short).1.2 } : taggableVCS).storage.tags
            v.module)
          = (v.storage.tags v.module).filter (fun t => decide (t.semVer ≠ semVer))
            ++ [{ semVer := semVer, short := short }]
      ∧ (({ wrapped := sampleGit [] (some Error.ErrNoMatchingVersion)
            module := "example.com/foo"
            storage := NewEphemeralTagStorage } : taggableVCS).Tag
            "v0.1.0" "abc123").1.1 = none
      ∧ ({ wrapped := sampleGit [] (some Error.ErrNoMatchingVersion)
           module := "example.com/foo"
           storage :=
             (({ wrapped := sampleGit [] (some Error.ErrNoMatchingVersion)
                 module := "example.com/foo"
                 storage := NewEphemeralTagStorage } : taggableVCS).Tag
               "v0.1.0" "abc123").1.2 } : taggableVCS).List.1
          = (["v0.1.0"], none) := by
  have h1 : v.wrapped.List.1 = [] := by rw [h]
  have h2 : v.wrapped.List.2 = some Error.ErrNoMatchingVersion := by rw [h]
  have hT : (v.Tag semVer short).1 = v.storage.Tag v.module semVer short := by
    simp [taggableVCS.Tag, taggableVCS.safeList, h1, h2, versionExists]
  have hL := overlayList_of_noMatch
    ({ v with storage := (v.Tag semVer short).1.2 } : taggableVCS) h2
  refine ⟨?_, ?_, ?_, by decide, by decide⟩
  · rw [hT]; rfl
  · rw [hL]
    simp [h1]
  · rw [hT]
    exact storeTag_tags v.storage v.module semVer short

theorem tag_and_list_without_remote_versions_witness :
    ({ sampleVCS [] (some Error.ErrNoMatchingVersion) [⟨"v0.1.0", "abc123"⟩] with
        storage := ((sampleVCS [] (some Error.ErrNoMatchingVersion)
          [⟨"v0.1.0", "abc123"⟩]).Tag "v0.2.0" "def456").1.2 } : taggableVCS).List.1
      = (["v0.1.0", "v0.2.0"], none) :=
  (tag_and_list_without_remote_versions
    (sampleVCS [] (some Error.ErrNoMatchingVersion) [⟨"v0.1.0", "abc123"⟩])
    "v0.2.0" "def456" rfl).2.1

/-- C14: in every store reached from `NewEphemeralTagStorage` by a finite
sequence of `Tag` calls, every module's tags hold at most one entry per
version: the versions of the tags are pairwise distinct, so the entries with
any given version number at most one. -/
theorem reachable_store_has_one_entry_per_version (calls : List TagCall)
    (m : String) :
    (((runTagCalls NewEphemeralTagStorage calls).tags m).map
        ephemeralTag.semVer).Nodup
      ∧ ∀ ver : Version,
          (((runTagCalls NewEphemeralTagStorage calls).tags m).filter
            (fun t => decide (t.semVer = ver))).length ≤ 1 := by
  have hn := nodup_runTagCalls calls NewEphemeralTagStorage
    (by intro m2; simp [NewEphemeralTagStorage, EphemeralTagStorage.tags]) m
  refine ⟨hn, ?_⟩
  intro ver
  have hc := List.nodup_iff_count_le_one.mp hn ver
  have hlen : (((runTagCalls NewEphemeralTagStorage calls).tags m).filter
      (fun t => decide (t.semVer = ver))).length
      = List.count ver
          (((runTagCalls NewEphemeralTagStorage calls).tags m).map
            ephemeralTag.semVer) := by
    generalize (runTagCalls NewEphemeralTagStorage calls).tags m = l
    induction l with
    | nil => rfl
    | cons t rest ih =>
      by_cases ht : t.semVer = ver
      · simp [List.filter_cons, List.count_cons, ht, ih]
      · simp [List.filter_cons, List.count_cons, ht, ih]
  rw [hlen]
  exact hc

/-- C15: the store's `Tag` returns no error, and the module's tags after the
call are the tags before it without the entries of the given version, in their
original order, followed by the one entry `(semVer, short)`. -/
theorem store_tag_removes_then_appends (s : EphemeralTagStorage) (m : String)
    (semVer : Version) (short : String) :
    (s.Tag m semVer short).1 = none
      ∧ (s.Tag m semVer short).2.tags m
          = (s.tags m).filter (fun t => decide (t.semVer ≠ semVer))
            ++ [{ semVer := semVer, short := short }]
      ∧ List.Sublist
          ((s.tags m).filter (fun t => decide (t.semVer ≠ semVer))) (s.tags m)
      ∧ (∀ t ∈ (s.tags m).filter (fun t => decide (t.semVer ≠ semVer)),
          t.semVer ≠ semVer)
      ∧ ∀ t ∈ s.tags m, t.semVer ≠ semVer →
          t ∈ (s.tags m).filter (fun t => decide (t.semVer ≠ semVer)) := by
  refine ⟨rfl, storeTag_tags s m semVer short, List.filter_sublist _, ?_, ?_⟩
  · intro t ht
    simpa using (List.mem_filter.mp ht).2
  · intro t ht hne
    exact List.mem_filter.mpr ⟨ht, by simpa using hne⟩

theorem reachable_store_has_one_entry_per_version_witness :
    (runTagCalls NewEphemeralTagStorage
        [⟨"example.com/foo", "v0.1.0", "abc"⟩, ⟨"example.com/foo", "v0.2.0", "def"⟩,
         ⟨"example.com/foo", "v0.1.0", "012"⟩]).tags "example.com/foo"
      = [⟨"v0.2.0", "def"⟩, ⟨"v0.1.0", "012"⟩]
    ∧ (((runTagCalls NewEphemeralTagStorage
        [⟨"example.com/foo", "v0.1.0", "abc"⟩, ⟨"example.com/foo", "v0.2.0", "def"⟩,
         ⟨"example.com/foo", "v0.1.0", "012"⟩]).tags "example.com/foo").map
        ephemeralTag.semVer).Nodup :=
  ⟨by decide,
   (reachable_store_has_one_entry_per_version
      [⟨"example.com/foo", "v0.1.0", "abc"⟩, ⟨"example.com/foo", "v0.2.0", "def"⟩,
       ⟨"example.com/foo", "v0.1.0", "012"⟩] "example.com/foo").1⟩

theorem store_tag_removes_then_appends_witness :
    ((sampleStore [⟨"v0.1.0", "abc"⟩, ⟨"v0.2.0", "def"⟩, ⟨"v0.3.0", "012"⟩]).Tag
        "example.com/foo" "v0.2.0" "345").2.tags "example.com/foo"
      = [⟨"v0.1.0", "abc"⟩, ⟨"v0.3.0", "012"⟩, ⟨"v0.2.0", "345"⟩] :=
  (store_tag_removes_then_appends
    (sampleStore [⟨"v0.1.0", "abc"⟩, ⟨"v0.2.0", "def"⟩, ⟨"v0.3.0", "012"⟩])
    "example.com/foo" "v0.2.0" "345").2.1

/-- C16: for distinct modules `m` and `m2`, a `Tag` call for `m`, made on the
store or through an overlay scoped to `m`, leaves the tags of `m2` as they
were, and `List` and `resolveVersion` of an overlay scoped to `m2` return the
same results on the store after the call as on the store before it. -/
theorem tag_leaves_other_modules_alone (s : EphemeralTagStorage) (m m2 : String)
    (semVer : Version) (short : String) (w : gitVCS) (hne : m ≠ m2) :
    (s.Tag m semVer short).2.tags m2 = s.tags m2
      ∧ (({ wrapped := w, module := m, storage := s } : taggableVCS).Tag
            semVer short).1.2.tags m2 = s.tags m2
      ∧ ∀ (w2 : gitVCS) (version : Version),
          ({ wrapped := w2, module := m2, storage := (s.Tag m semVer short).2 }
              : taggableVCS).List
            = ({ wrapped := w2, module := m2, storage := s } : taggableVCS).List
          ∧ ({ wrapped := w2, module := m2, storage := (s.Tag m semVer short).2 }
              : taggableVCS).resolveVersion version
            = ({ wrapped := w2, module := m2, storage := s }
              : taggableVCS).resolveVersion version
          ∧ ({ wrapped := w2, module := m2
               storage := (({ wrapped := w, module := m, storage := s }
                 : taggableVCS).Tag semVer short).1.2 } : taggableVCS).List
            = ({ wrapped := w2, module := m2, storage := s } : taggableVCS).List
          ∧ ({ wrapped := w2, module := m2
               storage := (({ wrapped := w, module := m, storage := s }
                 : taggableVCS).Tag semVer short).1.2 }
              : taggableVCS).resolveVersion version
            = ({ wrapped := w2, module := m2, storage := s }
              : taggableVCS).resolveVersion version := by
  have h1 : (s.Tag m semVer short).2.tags m2 = s.tags m2 :=
    storeTag_tags_other s m m2 semVer short (Ne.symm hne)
  have h2 : (({ wrapped := w, module := m, storage := s } : taggableVCS).Tag
        semVer short).1.2.tags m2 = s.tags m2 := by
    rcases overlayTag_store_cases
      ({ wrapped := w, module := m, storage := s } : taggableVCS) semVer short
      with hc | hc
    · rw [hc]
    · rw [hc]; exact h1
  refine ⟨h1, h2, ?_⟩
  intro w2 version
  exact ⟨(overlay_reads_congr w2 m2 _ s h1).1,
    (overlay_reads_congr w2 m2 _ s h1).2 version,
    (overlay_reads_congr w2 m2 _ s h2).1,
    (overlay_reads_congr w2 m2 _ s h2).2 version⟩

theorem tag_leaves_other_modules_alone_witness :
    ((sampleStore [⟨"v0.1.0", "abc"⟩]).Tag "example.com/bar" "v0.1.0" "def").2.tags
        "example.com/foo"
      = [⟨"v0.1.0", "abc"⟩] :=
  (tag_leaves_other_modules_alone (sampleStore [⟨"v0.1.0", "abc"⟩])
    "example.com/bar" "example.com/foo" "v0.1.0" "def" (sampleGit [] none)
    (by decide)).1

/-- C17: when the list the wrapped client returns has no duplicates and the
module's tags hold at most one entry per version, the list returned by the
overlay's `List` has no duplicates. -/
theorem merged_list_has_no_duplicates (v : taggableVCS)
    (hR : (v.wrapped.List.1).Nodup)
    (hinv : ((v.storage.tags v.module).map ephemeralTag.semVer).Nodup) :
    (v.List.1.1).Nodup := by
  have hmerge : (v.wrapped.List.1
      ++ ((v.storage.tags v.module).filter
            (fun t => decide (t.semVer ∉ v.wrapped.List.1))).map
          ephemeralTag.semVer).Nodup := by
    rw [List.nodup_append]
    refine ⟨hR, ?_, ?_⟩
    · exact hinv.sublist (List.Sublist.map _ (List.filter_sublist _))
    · intro x hx hx2
      obtain ⟨t, ht, hts⟩ := List.mem_map.mp hx2
      have hnot := (List.mem_filter.mp ht).2
      rw [hts] at hnot
      simp [hx] at hnot
  cases herr : v.wrapped.List.2 with
  | none =>
    rw [overlayList_of_ok v herr]
    exact hmerge
  | some e =>
    by_cases he : e = Error.ErrNoMatchingVersion
    · rw [overlayList_of_noMatch v (by rw [herr, he])]
      exact hmerge
    · simp [taggableVCS.List, taggableVCS.safeList, herr, he]

theorem merged_list_has_no_duplicates_witness :
    ((sampleVCS ["v1.0.0", "v1.1.0"] none
        [⟨"v1.1.0", "abc"⟩, ⟨"v1.2.0", "def"⟩]).List.1.1).Nodup :=
  merged_list_has_no_duplicates
    (sampleVCS ["v1.0.0", "v1.1.0"] none [⟨"v1.1.0", "abc"⟩, ⟨"v1.2.0", "def"⟩])
    (by decide) (by decide)

/-- C18: when the wrapped client lists `R` without error, a version occurs in
the list returned by the overlay's `List` exactly when it occurs in `R` or the
module has an ephemeral tag with that version. -/
theorem merged_list_membership (v : taggableVCS) (R : List Version)
    (h : v.wrapped.List = (R, none)) (x : Version) :
    x ∈ v.List.1.1 ↔ x ∈ R ∨ ∃ t ∈ v.storage.tags v.module, t.semVer = x := by
  have h1 : v.wrapped.List.1 = R := by rw [h]
  have h2 : v.wrapped.List.2 = none := by rw [h]
  rw [overlayList_of_ok v h2, h1]
  simp only [List.mem_append, List.mem_map, List.mem_filter]
  constructor
  · rintro (hx | ⟨t, ⟨ht, _⟩, hts⟩)
    · exact Or.inl hx
    · exact Or.inr ⟨t, ht, hts⟩
  · rintro (hx | ⟨t, ht, hts⟩)
    · exact Or.inl hx
    · by_cases hxR : x ∈ R
      · exact Or.inl hxR
      · refine Or.inr ⟨t, ⟨ht, ?_⟩, hts⟩
        rw [hts]
        simpa using hxR

theorem merged_list_membership_witness :
    "v1.2.0" ∈ (sampleVCS ["v1.0.0", "v1.1.0"] none
        [⟨"v1.1.0", "abc"⟩, ⟨"v1.2.0", "def"⟩]).List.1.1 :=
  (merged_list_membership
    (sampleVCS ["v1.0.0", "v1.1.0"] none [⟨"v1.1.0", "abc"⟩, ⟨"v1.2.0", "def"⟩])
    ["v1.0.0", "v1.1.0"] rfl "v1.2.0").mpr
    (Or.inr ⟨⟨"v1.2.0", "def"⟩, by decide, rfl⟩)

/-- C19: for distinct versions `semVer` and `other`, after the store's
`Tag` of `semVer` for a module, the module's entries with version `other` are
the ones present before, in the same order, and `resolveVersion other` of an
overlay scoped to the module returns the same result, with the same calls, as
before the call. -/
theorem tag_leaves_other_versions_alone (s : EphemeralTagStorage) (m : String)
    (semVer other : Version) (short : String) (hne : semVer ≠ other) :
    ((s.Tag m semVer short).2.tags m).filter (fun t => decide (t.semVer = other))
        = (s.tags m).filter (fun t => decide (t.semVer = other))
      ∧ ∀ w : gitVCS,
          ({ wrapped := w, module := m, storage := (s.Tag m semVer short).2 }
              : taggableVCS).resolveVersion other
            = ({ wrapped := w, module := m, storage := s }
              : taggableVCS).resolveVersion other := by
  have hf : ((s.Tag m semVer short).2.tags m).filter
        (fun t => decide (t.semVer = other))
      = (s.tags m).filter (fun t => decide (t.semVer = other)) := by
    rw [storeTag_tags, List.filter_append, List.filter_filter]
    have hlast : List.filter (fun t => decide (t.semVer = other))
        [({ semVer := semVer, short := short } : ephemeralTag)] = [] := by
      simp [hne]
    rw [hlast, List.append_nil]
    apply List.filter_congr
    intro t _
    by_cases ht : t.semVer = other
    · have hts : other ≠ semVer := fun hc => hne hc.symm
      simp [ht, hts]
    · simp [ht]
  refine ⟨hf, ?_⟩
  intro w
  simp only [taggableVCS.resolveVersion]
  rw [resolveLoop_filter w other ((s.Tag m semVer short).2.tags m),
    resolveLoop_filter w other (s.tags m), hf]

theorem tag_leaves_other_versions_alone_witness :
    ({ wrapped := sampleGit [] none, module := "example.com/foo",
       storage := ((sampleStore [⟨"v0.1.0", "abc"⟩, ⟨"v0.2.0", "def"⟩]).Tag
         "example.com/foo" "v0.1.0" "012").2 } : taggableVCS).resolveVersion "v0.2.0"
      = (sampleVCS [] none [⟨"v0.1.0", "abc"⟩, ⟨"v0.2.0", "def"⟩]).resolveVersion
          "v0.2.0" :=
  (tag_leaves_other_versions_alone
    (sampleStore [⟨"v0.1.0", "abc"⟩, ⟨"v0.2.0", "def"⟩])
    "example.com/foo" "v0.1.0" "v0.2.0" "012" (by decide)).2 (sampleGit [] none)
